import Mathlib

/-!
Shallow embedding of `src/0x02-redis_basic/exercise.py`: a `Cache` class that
stores values in an external key-value store under fresh uuid4 keys, two
decorators (`count_calls`, `call_history`) that record bookkeeping around the
wrapped method, and a `replay` reporting function.

The external store is modelled as one keyspace (a function from key to an
optional value, each value a byte string or a list of byte strings) together
with a chronological log of the commands issued, so that the order of side
effects is observable.  The nondeterministic `uuid.uuid4()` draw inside
`Cache.store` is passed in as an explicit argument.  Python byte strings are
`List Nat`; raised Python exceptions are the `.error` branch of `Except`.
-/

/-- A byte string, each entry a byte value below 256. -/
abbrev Bytes := List Nat

/-- UTF-8 encoding of a single character, by code point. -/
def utf8EncodeChar (c : Char) : Bytes :=
  let n := c.toNat
  if n < 128 then [n]
  else if n < 2048 then [192 + n / 64, 128 + n % 64]
  else if n < 65536 then [224 + n / 4096, 128 + n / 64 % 64, 128 + n % 64]
  else [240 + n / 262144, 128 + n / 4096 % 64, 128 + n / 64 % 64, 128 + n % 64]

/-- UTF-8 encoding of a string (Python str.encode, as the store client applies it). -/
def utf8Encode (s : String) : Bytes :=
  s.data.foldr (fun c acc => utf8EncodeChar c ++ acc) []

/-- Whether a byte is a UTF-8 continuation byte (10xxxxxx). -/
def utf8Cont (b : Nat) : Bool := 128 ≤ b && b < 192

/-- Strict UTF-8 decoding of a byte list into characters, rejecting overlong
    forms, surrogates and out-of-range code points, as Python bytes.decode does. -/
def utf8DecodeAux : List Nat → Option (List Char)
  | [] => some []
  | b0 :: bs =>
    if b0 < 128 then
      (utf8DecodeAux bs).map (fun cs => Char.ofNat b0 :: cs)
    else if b0 < 194 then none
    else if b0 < 224 then
      match bs with
      | b1 :: bs1 =>
        if utf8Cont b1 then
          (utf8DecodeAux bs1).map (fun cs => Char.ofNat ((b0 - 192) * 64 + (b1 - 128)) :: cs)
        else none
      | [] => none
    else if b0 < 240 then
      match bs with
      | b1 :: b2 :: bs2 =>
        if utf8Cont b1 && utf8Cont b2 then
          let n := (b0 - 224) * 4096 + (b1 - 128) * 64 + (b2 - 128)
          if 2048 ≤ n && !(55296 ≤ n && n < 57344) then
            (utf8DecodeAux bs2).map (fun cs => Char.ofNat n :: cs)
          else none
        else none
      | _ => none
    else if b0 < 245 then
      match bs with
      | b1 :: b2 :: b3 :: bs3 =>
        if utf8Cont b1 && utf8Cont b2 && utf8Cont b3 then
          let n := (b0 - 240) * 262144 + (b1 - 128) * 4096 + (b2 - 128) * 64 + (b3 - 128)
          if 65536 ≤ n && n < 1114112 then
            (utf8DecodeAux bs3).map (fun cs => Char.ofNat n :: cs)
          else none
        else none
      | _ => none
    else none

/-- Python bytes.decode of a byte string; none models a raised UnicodeDecodeError. -/
def utf8Dec (b : Bytes) : Option String :=
  (utf8DecodeAux b).map (fun cs => String.mk cs)

/-- Consume ASCII digits most-significant first, accumulating their value;
    none on any non-digit byte. -/
def goDigits : Nat → List Nat → Option Nat
  | acc, [] => some acc
  | acc, d :: rest => if 48 ≤ d ∧ d ≤ 57 then goDigits (acc * 10 + (d - 48)) rest else none

/-- Parse an optionally signed, nonempty ASCII decimal integer; none on anything
    else.  This models both the store's INCR text-to-integer parse and Python
    int() on the byte strings arising in this module (the surrounding whitespace
    and underscore separators Python int() would also accept never occur here). -/
def pyIntOfBytes : Bytes → Option Int
  | [] => none
  | b :: rest =>
    if b = 45 then
      if rest = [] then none else (goDigits 0 rest).map (fun m => -(m : Int))
    else if b = 43 then
      if rest = [] then none else (goDigits 0 rest).map (fun m => (m : Int))
    else (goDigits 0 (b :: rest)).map (fun m => (m : Int))

/-- ASCII digits of n, most significant first, by repeated division; empty for 0.
    The fuel argument only bounds the recursion and is in practice n itself. -/
def natToDigitsAux : Nat → Nat → List Nat
  | 0, _ => []
  | fuel + 1, n => if n = 0 then [] else natToDigitsAux fuel (n / 10) ++ [n % 10 + 48]

/-- ASCII decimal text of a natural number. -/
def natToBytes (n : Nat) : Bytes := if n = 0 then [48] else natToDigitsAux n n

/-- ASCII decimal text of an integer, as the store prints counters back. -/
def intToBytes (i : Int) : Bytes := if i < 0 then 45 :: natToBytes i.natAbs else natToBytes i.natAbs

/-- A Python value as this module handles it: the four storable payload types —
    str, bytes, int, float — plus None, the "no value" sentinel.  A float is
    carried by its repr text, the only view of it this code ever takes. -/
inductive PyVal where
  | pyNone : PyVal
  | str (s : String) : PyVal
  | bytes (b : Bytes) : PyVal
  | int (i : Int) : PyVal
  | float (r : String) : PyVal
deriving DecidableEq

/-- Whether a value has one of the types Cache.store accepts. -/
def PyVal.storable : PyVal → Bool
  | .pyNone => false
  | _ => true

/-- The byte serialization the store client applies before writing: str as
    UTF-8, bytes unchanged, int as decimal text, float as its repr text.
    (None is never serialized: the client rejects it first.) -/
def serialize : PyVal → Bytes
  | .pyNone => []
  | .str s => utf8Encode s
  | .bytes b => b
  | .int i => intToBytes i
  | .float r => utf8Encode r

/-- Lowercase hexadecimal digit character. -/
def hexDigit (n : Nat) : Char := if n < 10 then Char.ofNat (48 + n) else Char.ofNat (87 + n)

/-- The backslash-x-H-H escape for a byte or code point. -/
def hexEscape (n : Nat) : List Char :=
  [Char.ofNat 92, Char.ofNat 120, hexDigit (n / 16), hexDigit (n % 16)]

/-- Python repr escaping of one character, given the chosen quote code. -/
def pyEscapeChar (quote : Nat) (c : Char) : List Char :=
  let n := c.toNat
  if n = 92 then [Char.ofNat 92, Char.ofNat 92]
  else if n = quote then [Char.ofNat 92, Char.ofNat quote]
  else if n = 9 then [Char.ofNat 92, Char.ofNat 116]
  else if n = 10 then [Char.ofNat 92, Char.ofNat 110]
  else if n = 13 then [Char.ofNat 92, Char.ofNat 114]
  else if n < 32 ∨ n = 127 then hexEscape n
  else [c]

/-- Python repr of a str: single-quoted unless the text holds a single quote and
    no double quote.  (Python's unicodedata printability test for characters
    above 0x7F is approximated by keeping all of them as-is.) -/
def pyStrRepr (s : String) : String :=
  let quote : Nat :=
    if s.data.any (fun c => c.toNat == 39) && !(s.data.any (fun c => c.toNat == 34))
    then 34 else 39
  String.mk
    (Char.ofNat quote :: s.data.foldr (fun c acc => pyEscapeChar quote c ++ acc) [Char.ofNat quote])

/-- Python repr escaping of one byte, given the chosen quote code. -/
def pyBytesEscape (quote : Nat) (n : Nat) : List Char :=
  if n = 92 then [Char.ofNat 92, Char.ofNat 92]
  else if n = quote then [Char.ofNat 92, Char.ofNat quote]
  else if n = 9 then [Char.ofNat 92, Char.ofNat 116]
  else if n = 10 then [Char.ofNat 92, Char.ofNat 110]
  else if n = 13 then [Char.ofNat 92, Char.ofNat 114]
  else if 32 ≤ n ∧ n ≤ 126 then [Char.ofNat n]
  else hexEscape n

/-- Python repr of a bytes object (the form with a b prefix), as an f-string
    renders the raw outputs fetched from the store. -/
def pyBytesRepr (b : Bytes) : String :=
  let quote : Nat := if b.contains 39 && !(b.contains 34) then 34 else 39
  String.mk
    (Char.ofNat 98 :: Char.ofNat quote ::
      b.foldr (fun n acc => pyBytesEscape quote n ++ acc) [Char.ofNat quote])

/-- Python repr of a value, as str() on a tuple applies it to each element. -/
def pyReprVal : PyVal → String
  | .pyNone => "None"
  | .str s => pyStrRepr s
  | .bytes b => pyBytesRepr b
  | .int i => toString i
  | .float r => r

/-- Python str() of the one-element positional argument tuple (data,),
    which call_history pushes onto the inputs list. -/
def strTuple (v : PyVal) : String := "(" ++ pyReprVal v ++ ",)"

/-- A value held at a store key: a byte string or a list of byte strings. -/
inductive RVal where
  | rstr (b : Bytes) : RVal
  | rlist (l : List Bytes) : RVal
deriving DecidableEq

/-- Store commands, logged chronologically to make side-effect order observable. -/
inductive REvent where
  | setE (k : String) (v : Bytes) : REvent
  | getE (k : String) : REvent
  | incrE (k : String) : REvent
  | rpushE (k : String) (v : Bytes) : REvent
  | lrangeE (k : String) : REvent
  | flushE : REvent
deriving DecidableEq

/-- Errors surfacing to Python code in this module. -/
inductive PyError where
  | attributeError : PyError
  | typeError : PyError
  | valueError : PyError
  | unicodeDecodeError : PyError
  | wrongTypeError : PyError
  | notIntegerError : PyError
  | dataError : PyError
deriving DecidableEq

deriving instance DecidableEq for Except

/-- The external store: one keyspace plus the chronological command log. -/
structure RSt where
  db : String → Option RVal
  trace : List REvent

/-- The store with no keys and an empty log. -/
def RSt.empty : RSt := ⟨fun _ => none, []⟩

/-- Point update of the keyspace. -/
def dbSet (db : String → Option RVal) (k : String) (v : RVal) : String → Option RVal :=
  fun x => if x = k then some v else db x

/-- Log one command without touching the keyspace. -/
def RSt.log (st : RSt) (e : REvent) : RSt := ⟨st.db, st.trace ++ [e]⟩

/-- SET: write a byte string, overwriting any existing value of either type. -/
def rset (k : String) (v : Bytes) (st : RSt) : Except PyError Bool × RSt :=
  (.ok true, ⟨dbSet st.db k (.rstr v), st.trace ++ [.setE k v]⟩)

/-- GET: read a byte string, None when absent; WRONGTYPE on a list value. -/
def rget (k : String) (st : RSt) : Except PyError (Option Bytes) × RSt :=
  match st.db k with
  | none => (.ok none, st.log (.getE k))
  | some (.rstr b) => (.ok (some b), st.log (.getE k))
  | some (.rlist _) => (.error .wrongTypeError, st.log (.getE k))

/-- INCR: parse the held text as an integer (0 when the key is absent), add one,
    store the result back as text and return it. -/
def rincr (k : String) (st : RSt) : Except PyError Int × RSt :=
  match st.db k with
  | none => (.ok 1, ⟨dbSet st.db k (.rstr (intToBytes 1)), st.trace ++ [.incrE k]⟩)
  | some (.rstr b) =>
    match pyIntOfBytes b with
    | some i => (.ok (i + 1), ⟨dbSet st.db k (.rstr (intToBytes (i + 1))), st.trace ++ [.incrE k]⟩)
    | none => (.error .notIntegerError, st.log (.incrE k))
  | some (.rlist _) => (.error .wrongTypeError, st.log (.incrE k))

/-- RPUSH: append to the list at k, creating it when absent; WRONGTYPE on a
    byte-string value.  Returns the new length. -/
def rpush (k : String) (v : Bytes) (st : RSt) : Except PyError Int × RSt :=
  match st.db k with
  | none => (.ok 1, ⟨dbSet st.db k (.rlist [v]), st.trace ++ [.rpushE k v]⟩)
  | some (.rlist l) =>
    (.ok ((l.length : Int) + 1), ⟨dbSet st.db k (.rlist (l ++ [v])), st.trace ++ [.rpushE k v]⟩)
  | some (.rstr _) => (.error .wrongTypeError, st.log (.rpushE k v))

/-- LRANGE k 0 -1: the whole list, [] when absent; WRONGTYPE on a byte string. -/
def rlrange (k : String) (st : RSt) : Except PyError (List Bytes) × RSt :=
  match st.db k with
  | none => (.ok [], st.log (.lrangeE k))
  | some (.rlist l) => (.ok l, st.log (.lrangeE k))
  | some (.rstr _) => (.error .wrongTypeError, st.log (.lrangeE k))

/-- FLUSHDB: delete every key. -/
def rflushdb (st : RSt) : Except PyError Bool × RSt :=
  (.ok true, ⟨fun _ => none, st.trace ++ [.flushE]⟩)

/-- count_calls (exercise.py lines 13-25): when self._redis is a live store
    handle, increment the counter named by the method's qualified name, then
    invoke the wrapped method either way and return its result. -/
def count_calls {α : Type} (qualname : String) (live : Bool)
    (method : RSt → Except PyError α × RSt) (st : RSt) : Except PyError α × RSt :=
  if live then
    match rincr qualname st with
    | (.ok _, st1) => method st1
    | (.error e, st1) => (.error e, st1)
  else method st

/-- call_history (exercise.py lines 28-45): when self._redis is a live store
    handle, push str(args) onto qualname:inputs, invoke the method, push the
    serialized output onto qualname:outputs, and return the output.  When the
    handle is not live, just invoke the method. -/
def call_history {α : Type} (qualname : String) (live : Bool) (argsText : String)
    (outBytes : α → Bytes) (method : RSt → Except PyError α × RSt) (st : RSt) :
    Except PyError α × RSt :=
  if live then
    match rpush (qualname ++ ":inputs") (utf8Encode argsText) st with
    | (.error e, st1) => (.error e, st1)
    | (.ok _, st1) =>
      match method st1 with
      | (.error e, st2) => (.error e, st2)
      | (.ok out, st2) =>
        match rpush (qualname ++ ":outputs") (outBytes out) st2 with
        | (.error e, st3) => (.error e, st3)
        | (.ok _, st3) => (.ok out, st3)
  else method st

namespace Cache

/-- Cache.__init__ (exercise.py lines 80-85): open a connection and flush the
    whole database.  Every Cache so constructed has a live store handle. -/
def init (st : RSt) : RSt := (rflushdb st).2

/-- The body of Cache.store (exercise.py lines 99-101): write the value under a
    fresh uuid4 key and return the key.  The nondeterministic uuid4() draw is
    the dataKey argument; a value outside the accepted types makes the store
    client raise DataError before anything is written. -/
def store_raw (dataKey : String) (data : PyVal) (st : RSt) : Except PyError String × RSt :=
  if data.storable then
    match rset dataKey (serialize data) st with
    | (.ok _, st1) => (.ok dataKey, st1)
    | (.error e, st1) => (.error e, st1)
  else (.error .dataError, st)

/-- Cache.store as decorated (exercise.py lines 87-101): call_history outermost,
    count_calls inside it, around the raw body; qualified name Cache.store. -/
def store (dataKey : String) (data : PyVal) (st : RSt) : Except PyError String × RSt :=
  call_history "Cache.store" true (strTuple data) utf8Encode
    (count_calls "Cache.store" true (store_raw dataKey data)) st

/-- The two conversion lambdas that get_str and get_int pass to get. -/
inductive ConvFn where
  | decodeUtf8 : ConvFn
  | toInt : ConvFn
deriving DecidableEq

/-- Applying a conversion lambda to the raw result of the store read, which may
    be the None sentinel: x.decode on None raises AttributeError, int(None)
    raises TypeError, invalid UTF-8 raises UnicodeDecodeError, and non-numeric
    text raises ValueError. -/
def applyConv : ConvFn → Option Bytes → Except PyError PyVal
  | .decodeUtf8, none => .error .attributeError
  | .decodeUtf8, some b =>
    match utf8Dec b with
    | some s => .ok (.str s)
    | none => .error .unicodeDecodeError
  | .toInt, none => .error .typeError
  | .toInt, some b =>
    match pyIntOfBytes b with
    | some i => .ok (.int i)
    | none => .error .valueError

/-- Cache.get (exercise.py lines 103-115): read the raw value, then return
    fn(data) if fn else data — the conversion runs whenever fn is supplied,
    even when data is the None sentinel. -/
def get (key : String) (fn : Option ConvFn) (st : RSt) : Except PyError PyVal × RSt :=
  match rget key st with
  | (.error e, st1) => (.error e, st1)
  | (.ok data, st1) =>
    match fn with
    | some f => (applyConv f data, st1)
    | none =>
      match data with
      | none => (.ok .pyNone, st1)
      | some b => (.ok (.bytes b), st1)

/-- Cache.get_str (exercise.py lines 117-127). -/
def get_str (key : String) (st : RSt) : Except PyError PyVal × RSt :=
  get key (some .decodeUtf8) st

/-- Cache.get_int (exercise.py lines 129-139). -/
def get_int (key : String) (st : RSt) : Except PyError PyVal × RSt :=
  get key (some .toInt) st

end Cache

/-- What replay receives, classified exactly as the guards at exercise.py
    lines 53-57 see it: a falsy argument, a function with no bound receiver,
    a bound method whose receiver's store handle is not live, or a bound
    method of a Cache with a live store handle. -/
inductive ReplayArg where
  | falsy : ReplayArg
  | unbound (qualname : String) : ReplayArg
  | boundDead (qualname : String) : ReplayArg
  | boundLive (qualname : String) : ReplayArg

/-- The history lines of replay: name(*decoded-input) -> repr-of-output per
    zipped pair; decoding a raw input as UTF-8 can raise mid-loop, in which
    case the earlier lines were already printed. -/
def renderLines (qualname : String) : List (Bytes × Bytes) → List String × Except PyError Unit
  | [] => ([], .ok ())
  | (i, o) :: rest =>
    match utf8Dec i with
    | none => ([], .error .unicodeDecodeError)
    | some s =>
      let line := qualname ++ "(*" ++ s ++ ") -> " ++ pyBytesRepr o
      let (ls, r) := renderLines qualname rest
      (line :: ls, r)

/-- replay past its guards (exercise.py lines 59-72): print the summary line
    with int(get(name) or 0), then one line per zipped (input, output) pair.
    Returns the lines printed in order, the outcome, and the store state. -/
def replayLive (qualname : String) (st : RSt) : List String × Except PyError Unit × RSt :=
  match rget qualname st with
  | (.error e, st1) => ([], .error e, st1)
  | (.ok data, st1) =>
    let cnt : Option Int :=
      match data with
      | none => some 0
      | some b => if b = [] then some 0 else pyIntOfBytes b
    match cnt with
    | none => ([], .error .valueError, st1)
    | some n =>
      let summary := qualname ++ " was called " ++ toString n ++ " times:"
      match rlrange (qualname ++ ":inputs") st1 with
      | (.error e, st2) => ([summary], .error e, st2)
      | (.ok ins, st2) =>
        match rlrange (qualname ++ ":outputs") st2 with
        | (.error e, st3) => ([summary], .error e, st3)
        | (.ok outs, st3) =>
          let p := renderLines qualname (ins.zip outs)
          (summary :: p.1, p.2, st3)

/-- replay (exercise.py lines 48-72): return silently on a falsy, unbound or
    non-live argument; otherwise report from the store. -/
def replay (arg : ReplayArg) (st : RSt) : List String × Except PyError Unit × RSt :=
  match arg with
  | .falsy => ([], .ok (), st)
  | .unbound _ => ([], .ok (), st)
  | .boundDead _ => ([], .ok (), st)
  | .boundLive q => replayLive q st

/-- Run Cache.store once per (uuid draw, value) pair, stopping at the first
    raised error, as a caller issuing N store calls would. -/
def storeN : List (String × PyVal) → RSt → Except PyError Unit × RSt
  | [], st => (.ok (), st)
  | (k, v) :: rest, st =>
    match Cache.store k v st with
    | (.ok _, st1) => storeN rest st1
    | (.error e, st1) => (.error e, st1)

/-- The counter as replay reads it — int(get(q) or 0) — or None when that read
    would raise. -/
def counterValue (st : RSt) (q : String) : Option Int :=
  match st.db q with
  | none => some 0
  | some (.rstr b) => if b = [] then some 0 else pyIntOfBytes b
  | some (.rlist _) => none

/-- The length of the history list at a key (0 when absent), or None when the
    key holds a byte string instead of a list. -/
def histLen (st : RSt) (k : String) : Option Nat :=
  match st.db k with
  | none => some 0
  | some (.rlist l) => some l.length
  | some (.rstr _) => none

/-- A sequence of reads, each a get / get_str / get_int on some key, threading
    the store state through whatever each call returns. -/
def runGets : List (String × Option Cache.ConvFn) → RSt → RSt
  | [], st => st
  | (k, fn) :: rest, st => runGets rest (Cache.get k fn st).2

/-- The canonical shape of the three instrumentation keys after n completed
    store calls that recorded raw inputs ins and raw outputs outs. -/
def stInv (st : RSt) (n : Nat) (ins outs : List Bytes) : Prop :=
  st.db "Cache.store" = (if n = 0 then none else some (.rstr (intToBytes (n : Int)))) ∧
  st.db "Cache.store:inputs" = (if ins.isEmpty then none else some (.rlist ins)) ∧
  st.db "Cache.store:outputs" = (if outs.isEmpty then none else some (.rlist outs)) ∧
  ins.length = n ∧ outs.length = n

/-- The shape a history key can have in any state the facade produces:
    absent (empty history) or an actual list. -/
def listShape (r : Option RVal) (l : List Bytes) : Prop :=
  (r = none ∧ l = []) ∨ r = some (.rlist l)

theorem goDigits_digits (l : List Nat) : ∀ acc, (∀ d ∈ l, 48 ≤ d ∧ d ≤ 57) →
    goDigits acc l = some (l.foldl (fun a d => a * 10 + (d - 48)) acc) := by
  induction l with
  | nil => intro acc _; rfl
  | cons d rest ih =>
    intro acc h
    have hd := h d (List.mem_cons_self d rest)
    simp only [goDigits, if_pos hd, List.foldl_cons]
    exact ih _ (fun x hx => h x (List.mem_cons_of_mem d hx))

theorem natToDigitsAux_digits : ∀ fuel n, ∀ d ∈ natToDigitsAux fuel n, 48 ≤ d ∧ d ≤ 57 := by
  intro fuel
  induction fuel with
  | zero => intro n d hd; simp [natToDigitsAux] at hd
  | succ fuel ih =>
    intro n d hd
    by_cases hn : n = 0
    · simp [natToDigitsAux, hn] at hd
    · simp only [natToDigitsAux, if_neg hn, List.mem_append, List.mem_singleton] at hd
      rcases hd with hd | hd
      · exact ih _ d hd
      · subst hd
        have : n % 10 < 10 := Nat.mod_lt _ (by omega)
        omega

theorem natToDigitsAux_foldl : ∀ fuel n, n ≤ fuel →
    (natToDigitsAux fuel n).foldl (fun a d => a * 10 + (d - 48)) 0 = n := by
  intro fuel
  induction fuel with
  | zero => intro n h; interval_cases n; rfl
  | succ fuel ih =>
    intro n h
    by_cases hn : n = 0
    · subst hn; rfl
    · have hdiv : n / 10 ≤ fuel := by
        have : n / 10 < n := Nat.div_lt_self (by omega) (by omega)
        omega
      -- the foldl over l ++ [d] is f (foldl l) d, but the inner foldl restarts from 0 only
      -- when the accumulator is 0, which it is here
      simp only [natToDigitsAux, if_neg hn, List.foldl_append, ih _ hdiv, List.foldl_cons,
        List.foldl_nil]
      have := Nat.div_add_mod n 10
      omega

theorem goDigits_natToBytes (n : Nat) : goDigits 0 (natToBytes n) = some n := by
  by_cases hn : n = 0
  · subst hn; rfl
  · rw [natToBytes, if_neg hn,
      goDigits_digits _ 0 (fun d hd => natToDigitsAux_digits n n d hd),
      natToDigitsAux_foldl n n (Nat.le_refl n)]

theorem natToBytes_cons_digit (n : Nat) : ∃ d rest, natToBytes n = d :: rest ∧ 48 ≤ d ∧ d ≤ 57 := by
  by_cases hn : n = 0
  · exact ⟨48, [], by simp [natToBytes, hn], by omega, by omega⟩
  · rcases he : natToBytes n with _ | ⟨d, rest⟩
    · exfalso
      rw [natToBytes, if_neg hn] at he
      obtain ⟨m, rfl⟩ := Nat.exists_eq_succ_of_ne_zero hn
      simp only [natToDigitsAux, if_neg hn] at he
      exact absurd he (List.append_ne_nil_of_right_ne_nil _ (by simp))
    · refine ⟨d, rest, rfl, ?_⟩
      have hd : d ∈ natToBytes n := by rw [he]; exact List.mem_cons_self d rest
      rw [natToBytes, if_neg hn] at hd
      exact natToDigitsAux_digits n n d hd

theorem pyIntOfBytes_natToBytes (n : Nat) : pyIntOfBytes (natToBytes n) = some (n : Int) := by
  rcases natToBytes_cons_digit n with ⟨d, rest, he, h1, h2⟩
  have hgo := goDigits_natToBytes n
  rw [he] at hgo ⊢
  simp [pyIntOfBytes, if_neg (by omega : ¬ d = 45), if_neg (by omega : ¬ d = 43), hgo]

theorem pyIntOfBytes_intToBytes_ofNat (n : Nat) : pyIntOfBytes (intToBytes (n : Int)) = some (n : Int) := by
  rw [intToBytes, if_neg (by omega : ¬ (n : Int) < 0), Int.natAbs_ofNat]
  exact pyIntOfBytes_natToBytes n

theorem store_step {st : RSt} {n : Nat} {ins outs : List Bytes} (k : String) (v : PyVal)
    (hinv : stInv st n ins outs) (hv : v.storable = true)
    (hk1 : k ≠ "Cache.store") (hk2 : k ≠ "Cache.store:inputs") (hk3 : k ≠ "Cache.store:outputs") :
    (Cache.store k v st).1 = .ok k ∧
    stInv (Cache.store k v st).2 (n + 1) (ins ++ [utf8Encode (strTuple v)])
      (outs ++ [utf8Encode k]) ∧
    (Cache.store k v st).2.db k = some (.rstr (serialize v)) ∧
    (Cache.store k v st).2.trace = st.trace ++
      [.rpushE "Cache.store:inputs" (utf8Encode (strTuple v)), .incrE "Cache.store",
       .setE k (serialize v), .rpushE "Cache.store:outputs" (utf8Encode k)] := by
  obtain ⟨hc, hi, ho, hli, hlo⟩ := hinv
  by_cases hn : n = 0
  · subst hn
    rw [if_pos rfl] at hc
    have hie : ins = [] := List.length_eq_zero.mp hli
    have hoe : outs = [] := List.length_eq_zero.mp hlo
    subst hie; subst hoe
    simp only [List.isEmpty_nil, if_true] at hi ho
    refine ⟨?_, ⟨?_, ?_, ?_, ?_, ?_⟩, ?_, ?_⟩ <;>
      simp [Cache.store, call_history, count_calls, Cache.store_raw, rpush, rincr, rset, hv,
        hc, hi, ho, stInv, dbSet, hk1, hk2, hk3, Ne.symm hk1, Ne.symm hk2, Ne.symm hk3]
  · rw [if_neg hn] at hc
    have hie : ¬ ins.isEmpty := by
      cases ins with
      | nil => simp at hli; omega
      | cons a l => simp
    have hoe : ¬ outs.isEmpty := by
      cases outs with
      | nil => simp at hlo; omega
      | cons a l => simp
    rw [if_neg hie] at hi
    rw [if_neg hoe] at ho
    refine ⟨?_, ⟨?_, ?_, ?_, ?_, ?_⟩, ?_, ?_⟩ <;>
      simp [Cache.store, call_history, count_calls, Cache.store_raw, rpush, rincr, rset, hv,
        hc, hi, ho, stInv, dbSet, hk1, hk2, hk3, Ne.symm hk1, Ne.symm hk2, Ne.symm hk3,
        pyIntOfBytes_intToBytes_ofNat, hn, hli, hlo]

theorem rlrange_shape {st : RSt} {k : String} {l : List Bytes} (h : listShape (st.db k) l) :
    rlrange k st = (.ok l, st.log (.lrangeE k)) := by
  rcases h with ⟨h1, h2⟩ | h1
  · subst h2; simp [rlrange, h1]
  · simp [rlrange, h1]

theorem counterValue_intToBytes {st : RSt} {q : String} (m : Nat)
    (h : st.db q = some (.rstr (intToBytes (m : Int)))) :
    counterValue st q = some (m : Int) := by
  rcases natToBytes_cons_digit m with ⟨d, rest, he, h1, h2⟩
  have hne : intToBytes (m : Int) ≠ [] := by
    rw [intToBytes, if_neg (by omega : ¬ (m : Int) < 0), Int.natAbs_ofNat, he]
    simp
  simp [counterValue, h, hne, pyIntOfBytes_intToBytes_ofNat]

theorem storeN_spec : ∀ (calls : List (String × PyVal)) (st : RSt) (n : Nat) (ins outs : List Bytes),
    stInv st n ins outs →
    (∀ p ∈ calls, p.2.storable = true ∧ p.1 ≠ "Cache.store" ∧ p.1 ≠ "Cache.store:inputs" ∧
      p.1 ≠ "Cache.store:outputs") →
    (storeN calls st).1 = .ok () ∧
    stInv (storeN calls st).2 (n + calls.length)
      (ins ++ calls.map (fun p => utf8Encode (strTuple p.2)))
      (outs ++ calls.map (fun p => utf8Encode p.1)) := by
  intro calls
  induction calls with
  | nil =>
    intro st n ins outs hinv _
    simpa [storeN] using hinv
  | cons p rest ih =>
    intro st n ins outs hinv hf
    obtain ⟨k, v⟩ := p
    have hp := hf (k, v) (List.mem_cons_self _ _)
    obtain ⟨hs1, hs2, _, _⟩ := store_step k v hinv hp.1 hp.2.1 hp.2.2.1 hp.2.2.2
    rcases he : Cache.store k v st with ⟨r, st1⟩
    rw [he] at hs1 hs2
    simp only at hs1 hs2
    subst hs1
    have hrest := ih st1 (n + 1) _ _ hs2 (fun x hx => hf x (List.mem_cons_of_mem _ hx))
    simp only [storeN, he]
    refine ⟨hrest.1, ?_⟩
    have hlen : n + 1 + rest.length = n + (rest.length + 1) := by omega
    have := hrest.2
    rw [hlen] at this
    simpa [List.append_assoc] using this

/-- C3: after N successful calls to the wrapped store operation on a live store
    connection (each uuid draw distinct from the three instrumentation keys),
    the counter at the qualified name Cache.store reads N, and the inputs and
    outputs history lists each have length N. -/
theorem stores_counter_and_history (calls : List (String × PyVal)) (st0 : RSt)
    (h0 : ∀ k2, st0.db k2 = none)
    (hf : ∀ p ∈ calls, p.2.storable = true ∧ p.1 ≠ "Cache.store" ∧
      p.1 ≠ "Cache.store:inputs" ∧ p.1 ≠ "Cache.store:outputs") :
    (storeN calls st0).1 = .ok () ∧
    counterValue (storeN calls st0).2 "Cache.store" = some (calls.length : Int) ∧
    histLen (storeN calls st0).2 "Cache.store:inputs" = some calls.length ∧
    histLen (storeN calls st0).2 "Cache.store:outputs" = some calls.length := by
  have hinv0 : stInv st0 0 [] [] := by
    refine ⟨?_, ?_, ?_, rfl, rfl⟩ <;> simp [h0]
  obtain ⟨hok, hc, hi, ho, hli, hlo⟩ := storeN_spec calls st0 0 [] [] hinv0 hf
  simp only [List.nil_append, Nat.zero_add] at hc hi ho hli hlo
  refine ⟨hok, ?_, ?_, ?_⟩
  · by_cases hn : calls.length = 0
    · rw [hn] at hc ⊢
      rw [if_pos rfl] at hc
      simp [counterValue, hc]
    · rw [if_neg hn] at hc
      exact counterValue_intToBytes calls.length hc
  · by_cases hn : (calls.map (fun p => utf8Encode (strTuple p.2))).isEmpty
    · rw [if_pos hn] at hi
      have : calls.length = 0 := by simpa using hn
      simp [histLen, hi, hli, this]
    · rw [if_neg hn] at hi
      simp [histLen, hi, hli]
  · by_cases hn : (calls.map (fun p => utf8Encode p.1)).isEmpty
    · rw [if_pos hn] at ho
      have : calls.length = 0 := by simpa using hn
      simp [histLen, ho, hlo, this]
    · rw [if_neg hn] at ho
      simp [histLen, ho, hlo]

/-- C3 witness: three concrete stores from a fresh store leave counter 3 and
    history lists of length 3. -/
theorem stores_counter_and_history_witness :
    (storeN [("u0", PyVal.str "a"), ("u1", PyVal.str "b"), ("u2", PyVal.str "c")] RSt.empty).1 =
      .ok () ∧
    counterValue (storeN [("u0", PyVal.str "a"), ("u1", PyVal.str "b"), ("u2", PyVal.str "c")]
      RSt.empty).2 "Cache.store" = some 3 ∧
    histLen (storeN [("u0", PyVal.str "a"), ("u1", PyVal.str "b"), ("u2", PyVal.str "c")]
      RSt.empty).2 "Cache.store:inputs" = some 3 ∧
    histLen (storeN [("u0", PyVal.str "a"), ("u1", PyVal.str "b"), ("u2", PyVal.str "c")]
      RSt.empty).2 "Cache.store:outputs" = some 3 :=
  stores_counter_and_history
    [("u0", PyVal.str "a"), ("u1", PyVal.str "b"), ("u2", PyVal.str "c")] RSt.empty
    (fun _ => rfl) (by decide)

/-- C5: a store call on a live connection issues its side effects in this fixed
    order: append of str(args) to Cache.store:inputs, increment of the
    Cache.store counter, write of the value under the fresh key, append of the
    returned key to Cache.store:outputs. -/
theorem store_effect_order (st : RSt) (n : Nat) (ins outs : List Bytes) (k : String) (v : PyVal)
    (hinv : stInv st n ins outs) (hv : v.storable = true)
    (hk1 : k ≠ "Cache.store") (hk2 : k ≠ "Cache.store:inputs")
    (hk3 : k ≠ "Cache.store:outputs") :
    (Cache.store k v st).2.trace = st.trace ++
      [.rpushE "Cache.store:inputs" (utf8Encode (strTuple v)), .incrE "Cache.store",
       .setE k (serialize v), .rpushE "Cache.store:outputs" (utf8Encode k)] :=
  (store_step k v hinv hv hk1 hk2 hk3).2.2.2

/-- C5 witness: a concrete store from a fresh store leaves exactly the four
    events in order. -/
theorem store_effect_order_witness :
    (Cache.store "u0" (PyVal.str "a") RSt.empty).2.trace =
      [.rpushE "Cache.store:inputs" (utf8Encode "('a',)"), .incrE "Cache.store",
       .setE "u0" (utf8Encode "a"), .rpushE "Cache.store:outputs" (utf8Encode "u0")] :=
  (store_effect_order RSt.empty 0 [] [] "u0" (PyVal.str "a")
    ⟨rfl, rfl, rfl, rfl, rfl⟩ rfl (by decide) (by decide) (by decide)).trans (by decide)

/-- C1 (amended): get on the key returned by store(v), with no decode function,
    returns the byte serialization of v; that result equals v exactly when v is
    a bytes value. -/
theorem store_get_round_trip (st : RSt) (n : Nat) (ins outs : List Bytes) (k : String) (v : PyVal)
    (hinv : stInv st n ins outs) (hv : v.storable = true)
    (hk1 : k ≠ "Cache.store") (hk2 : k ≠ "Cache.store:inputs")
    (hk3 : k ≠ "Cache.store:outputs") :
    (Cache.store k v st).1 = .ok k ∧
    (Cache.get k none (Cache.store k v st).2).1 = .ok (.bytes (serialize v)) ∧
    (PyVal.bytes (serialize v) = v ↔ ∃ b, v = PyVal.bytes b) := by
  obtain ⟨h1, _, hdbk, _⟩ := store_step k v hinv hv hk1 hk2 hk3
  refine ⟨h1, ?_, ?_⟩
  · simp [Cache.get, rget, hdbk]
  · constructor
    · intro h
      cases v with
      | bytes b => exact ⟨b, rfl⟩
      | pyNone => exact absurd h (by simp)
      | str s => exact absurd h (by simp)
      | int i => exact absurd h (by simp)
      | float r => exact absurd h (by simp)
    · rintro ⟨b, rfl⟩
      rfl

/-- C1 witness: the amended round trip at a concrete bytes value, where the
    original claim also holds. -/
theorem store_get_round_trip_witness :
    (Cache.get "u0" none (Cache.store "u0" (PyVal.bytes [104]) RSt.empty).2).1 =
      .ok (.bytes [104]) :=
  (store_get_round_trip RSt.empty 0 [] [] "u0" (PyVal.bytes [104])
    ⟨rfl, rfl, rfl, rfl, rfl⟩ rfl (by decide) (by decide) (by decide)).2.1

/-- C1 counterexample: storing the int 1 and reading the returned key back with
    no decode function yields the bytes b"1", not the int 1. -/
theorem store_get_round_trip_cex :
    (Cache.get "u0" none (Cache.store "u0" (PyVal.int 1) RSt.empty).2).1 =
      .ok (.bytes [49]) ∧
    PyVal.bytes [49] ≠ PyVal.int 1 := by decide

/-- C2 (amended): get with no decode function on an absent key returns the None
    sentinel, but get_str and get_int on an absent key apply their decode
    function to the sentinel and raise: AttributeError from None.decode and
    TypeError from int(None). -/
theorem get_absent_behavior (st : RSt) (key : String) (h : st.db key = none) :
    (Cache.get key none st).1 = .ok .pyNone ∧
    (Cache.get_str key st).1 = .error .attributeError ∧
    (Cache.get_int key st).1 = .error .typeError := by
  refine ⟨?_, ?_, ?_⟩ <;>
    simp [Cache.get, Cache.get_str, Cache.get_int, rget, h, Cache.applyConv]

/-- C2 witness: the amended behavior at a concrete absent key in a fresh store. -/
theorem get_absent_behavior_witness :
    (Cache.get "k" none RSt.empty).1 = .ok .pyNone ∧
    (Cache.get_str "k" RSt.empty).1 = .error .attributeError ∧
    (Cache.get_int "k" RSt.empty).1 = .error .typeError :=
  get_absent_behavior RSt.empty "k" rfl

/-- C2 counterexample: on an absent key, get_str raises AttributeError and
    get_int raises TypeError — the decode step is not skipped, refuting the
    claim that neither raises. -/
theorem get_absent_behavior_cex :
    (Cache.get_str "nokey" RSt.empty).1 = .error .attributeError ∧
    (Cache.get_int "nokey" RSt.empty).1 = .error .typeError := by decide

/-- C9: get with no decode function on a present key returns the raw stored
    bytes; with a decode function supplied, a UTF-8 decode failure in get_str
    and a non-numeric parse failure in get_int propagate as errors. -/
theorem get_present_and_decode_errors (st : RSt) (key : String) (b : Bytes)
    (h : st.db key = some (.rstr b)) :
    (Cache.get key none st).1 = .ok (.bytes b) ∧
    (utf8Dec b = none → (Cache.get_str key st).1 = .error .unicodeDecodeError) ∧
    (pyIntOfBytes b = none → (Cache.get_int key st).1 = .error .valueError) := by
  refine ⟨?_, fun hd => ?_, fun hp => ?_⟩
  · simp [Cache.get, rget, h]
  · simp [Cache.get_str, Cache.get, rget, h, Cache.applyConv, hd]
  · simp [Cache.get_int, Cache.get, rget, h, Cache.applyConv, hp]

/-- C9 witness: at a key holding the single byte 0xFF, get returns the raw
    byte, get_str raises a decode error and get_int raises a parse error. -/
theorem get_present_and_decode_errors_witness :
    (Cache.get "k" none ⟨fun k2 => if k2 = "k" then some (.rstr [255]) else none, []⟩).1 =
      .ok (.bytes [255]) ∧
    (Cache.get_str "k" ⟨fun k2 => if k2 = "k" then some (.rstr [255]) else none, []⟩).1 =
      .error .unicodeDecodeError ∧
    (Cache.get_int "k" ⟨fun k2 => if k2 = "k" then some (.rstr [255]) else none, []⟩).1 =
      .error .valueError := by
  have h := get_present_and_decode_errors
    ⟨fun k2 => if k2 = "k" then some (.rstr [255]) else none, []⟩ "k" [255] rfl
  exact ⟨h.1, h.2.1 (by decide), h.2.2 (by decide)⟩

/-- C8: constructing the Cache facade flushes the external store: after any
    construction, and after a second construction in sequence against the same
    store, the store holds no keys. -/
theorem init_flushes (st : RSt) :
    (∀ k, (Cache.init st).db k = none) ∧
    (∀ k, (Cache.init (Cache.init st)).db k = none) :=
  ⟨fun _ => rfl, fun _ => rfl⟩

/-- C7: replay on a falsy argument, an unbound function, or a bound method
    whose receiver lacks a live store handle prints nothing, raises nothing and
    changes nothing. -/
theorem replay_silent_no_op (st : RSt) (q : String) :
    replay .falsy st = ([], .ok (), st) ∧
    replay (.unbound q) st = ([], .ok (), st) ∧
    replay (.boundDead q) st = ([], .ok (), st) :=
  ⟨rfl, rfl, rfl⟩

theorem rget_db (k : String) (st : RSt) : (rget k st).2.db = st.db := by
  rcases h : st.db k with _ | v
  · simp [rget, h, RSt.log]
  · rcases v with b | l <;> simp [rget, h, RSt.log]

theorem get_db (key : String) (fn : Option Cache.ConvFn) (st : RSt) :
    (Cache.get key fn st).2.db = st.db := by
  have hr := rget_db key st
  rw [Cache.get]
  rcases he : rget key st with ⟨r, st1⟩
  rw [he] at hr
  rcases r with e | data
  · simpa using hr
  · rcases fn with _ | f
    · rcases data with _ | b <;> simpa using hr
    · simpa using hr

theorem runGets_db : ∀ (calls : List (String × Option Cache.ConvFn)) (st : RSt),
    (runGets calls st).db = st.db := by
  intro calls
  induction calls with
  | nil => intro st; rfl
  | cons c rest ih =>
    intro st
    obtain ⟨k, fn⟩ := c
    rw [runGets, ih, get_db]

/-- C10: get, get_str and get_int never write: a single call of any of them, and
    any sequence of such calls, leaves every key of the store — stored values,
    call counters and history lists alike — unchanged, whether or not the keys
    read are present. -/
theorem gets_read_only (calls : List (String × Option Cache.ConvFn)) (st : RSt) :
    (runGets calls st).db = st.db ∧
    (∀ key fn, (Cache.get key fn st).2.db = st.db) ∧
    (∀ key, (Cache.get_str key st).2.db = st.db) ∧
    (∀ key, (Cache.get_int key st).2.db = st.db) :=
  ⟨runGets_db calls st, fun key fn => get_db key fn st,
   fun key => get_db key (some .decodeUtf8) st, fun key => get_db key (some .toInt) st⟩

/-- C4: both wrappers are transparent. With no live store handle each wrapper is
    the identity on the wrapped call.  With a live handle, count_calls returns
    exactly what the method call returns once the increment succeeds (so method
    errors propagate unchanged), and call_history, once its input append
    succeeds, propagates a method error unchanged and returns exactly the
    method's value when the method and the output append succeed. -/
theorem wrappers_transparent {α : Type} (q a : String) (ob : α → Bytes)
    (m : RSt → Except PyError α × RSt) (st : RSt) :
    count_calls q false m st = m st ∧
    call_history q false a ob m st = m st ∧
    (∀ r1 st1, rincr q st = (.ok r1, st1) → count_calls q true m st = m st1) ∧
    (∀ r1 st1, rpush (q ++ ":inputs") (utf8Encode a) st = (.ok r1, st1) →
      (∀ e st2, m st1 = (.error e, st2) → call_history q true a ob m st = (.error e, st2)) ∧
      (∀ out st2 r2 st3, m st1 = (.ok out, st2) →
        rpush (q ++ ":outputs") (ob out) st2 = (.ok r2, st3) →
        call_history q true a ob m st = (.ok out, st3))) := by
  refine ⟨rfl, rfl, ?_, ?_⟩
  · intro r1 st1 h
    simp [count_calls, h]
  · intro r1 st1 h
    constructor
    · intro e st2 hm
      simp [call_history, h, hm]
    · intro out st2 r2 st3 hm hp
      simp [call_history, h, hm, hp]

/-- C4 witness: the transparency equations at a concrete method, with every
    hypothesis discharged by computation. -/
theorem wrappers_transparent_witness :
    count_calls "f" true (fun st => (.ok "K", st)) RSt.empty =
      (fun (st : RSt) => ((.ok "K" : Except PyError String), st))
        (rincr "f" RSt.empty).2 ∧
    call_history "f" true "('x',)" utf8Encode (fun st => (.ok "K", st)) RSt.empty =
      (.ok "K", (rpush ("f" ++ ":outputs") (utf8Encode "K")
        ((fun (st : RSt) => ((.ok "K" : Except PyError String), st))
          (rpush ("f" ++ ":inputs") (utf8Encode "('x',)") RSt.empty).2).2).2) := by
  have h := wrappers_transparent "f" "('x',)" utf8Encode
    (fun st => (.ok "K", st)) RSt.empty
  exact ⟨h.2.2.1 1 _ rfl, (h.2.2.2 1 _ rfl).2 "K" _ 1 _ rfl rfl⟩

theorem renderLines_decodable (q : String) : ∀ (pairs : List (Bytes × Bytes)),
    (∀ p ∈ pairs, (utf8Dec p.1).isSome) →
    renderLines q pairs =
      (pairs.map (fun p => q ++ "(*" ++ (utf8Dec p.1).getD "" ++ ") -> " ++ pyBytesRepr p.2),
       .ok ()) := by
  intro pairs
  induction pairs with
  | nil => intro _; rfl
  | cons p rest ih =>
    intro h
    obtain ⟨i, o⟩ := p
    have hp := h (i, o) (List.mem_cons_self _ _)
    rcases hd : utf8Dec i with _ | s
    · rw [hd] at hp; simp at hp
    · simp only [renderLines, hd, ih (fun x hx => h x (List.mem_cons_of_mem _ hx))]
      simp [hd]

/-- C6: replay on a live bound instrumented operation prints the summary line
    with the counter (0 when the counter key is unset) and then exactly
    min(|inputs|, |outputs|) entry lines, pairing inputs and outputs
    positionally with extras on the longer list dropped, each line of the form
    name(*input-text) -> output-text. -/
theorem replay_live_output (st : RSt) (q : String) (n : Int) (ins outs : List Bytes)
    (hc : counterValue st q = some n)
    (hi : listShape (st.db (q ++ ":inputs")) ins)
    (ho : listShape (st.db (q ++ ":outputs")) outs)
    (hdec : ∀ b ∈ ins, (utf8Dec b).isSome) :
    (replay (.boundLive q) st).1 =
      (q ++ " was called " ++ toString n ++ " times:") ::
        (ins.zip outs).map
          (fun p => q ++ "(*" ++ (utf8Dec p.1).getD "" ++ ") -> " ++ pyBytesRepr p.2) ∧
    (replay (.boundLive q) st).2.1 = .ok () ∧
    ((ins.zip outs).map
      (fun p => q ++ "(*" ++ (utf8Dec p.1).getD "" ++ ") -> " ++ pyBytesRepr p.2)).length =
      min ins.length outs.length := by
  have hz : ∀ p ∈ ins.zip outs, (utf8Dec p.1).isSome :=
    fun p hp => hdec p.1 (List.of_mem_zip hp).1
  have hrl := renderLines_decodable q (ins.zip outs) hz
  refine ?_
  rcases hdb : st.db q with _ | v
  · simp only [counterValue, hdb] at hc
    have hn0 : n = 0 := by
      injection hc with hc2
      omega
    subst hn0
    have e2 := @rlrange_shape (st.log (.getE q)) (q ++ ":inputs") ins hi
    have e3 := @rlrange_shape ((st.log (.getE q)).log (.lrangeE (q ++ ":inputs")))
      (q ++ ":outputs") outs ho
    simp only [replay, replayLive, rget, hdb, e2, e3, hrl]
    simp [List.length_zip]
  · rcases v with b | l
    · simp only [counterValue, hdb] at hc
      have e2 := @rlrange_shape (st.log (.getE q)) (q ++ ":inputs") ins hi
      have e3 := @rlrange_shape ((st.log (.getE q)).log (.lrangeE (q ++ ":inputs")))
        (q ++ ":outputs") outs ho
      simp only [replay, replayLive, rget, hdb, hc, e2, e3, hrl]
      simp [List.length_zip]
    · simp [counterValue, hdb] at hc

/-- C6 witness: counter key unset (summary says 0), one input, two outputs —
    the extra output is dropped and exactly one entry line is printed. -/
theorem replay_live_output_witness :
    (replay (.boundLive "Cache.store") ⟨fun k =>
        if k = "Cache.store:inputs" then some (.rlist [utf8Encode "('a',)"])
        else if k = "Cache.store:outputs" then
          some (.rlist [utf8Encode "u0", utf8Encode "u1"])
        else none, []⟩).1 =
      ["Cache.store was called 0 times:", "Cache.store(*('a',)) -> b'u0'"] ∧
    (1 : Nat) = min 1 2 := by
  have h := replay_live_output ⟨fun k =>
      if k = "Cache.store:inputs" then some (.rlist [utf8Encode "('a',)"])
      else if k = "Cache.store:outputs" then
        some (.rlist [utf8Encode "u0", utf8Encode "u1"])
      else none, []⟩ "Cache.store" 0 [utf8Encode "('a',)"]
    [utf8Encode "u0", utf8Encode "u1"] (by decide) (Or.inr (by decide)) (Or.inr (by decide))
    (by decide)
  exact ⟨h.1.trans (by decide), by decide⟩
